import Mathlib

/-!
Verification of the MigDBQuery grouping and threshold analytics engine.

The development shallowly embeds the two analytics entry points of the
repository:

* `fetchProfitableTokenGroupsWithMigration` (with `getTopMigratingGroups`):
  multi-key grouping with migration rates and the percentile-based
  common-rise estimator;
* `findProfitableTokenGroups`: the sell-threshold simulator with win/loss
  accounting and risk classification.

JavaScript numbers are modelled as rationals (every numeric field of the
Mongoose schema has a default, so fields are always-present numbers).
JavaScript `Math.round` (round half toward plus infinity) coincides with
Mathlib's `round`; MongoDB's `$round` (round half to even) is modelled
separately.  The MongoDB pipeline stages are translated stage by stage into
list operations; the `$sort` stages are modelled with `List.insertionSort`,
which produces a list sorted by the corresponding comparator.  The ambient
clock (`Date.now()` / `new Date()`) is passed in as an explicit cutoff
argument.
-/

namespace MigDBQuery

/-- JavaScript `Math.round(x * 100) / 100` (round half toward plus infinity,
which is Mathlib's `round`): used for `migrationRate` and summary rates. -/
def jsRound2 (x : ℚ) : ℚ := (round (x * 100) : ℤ) / 100

/-- JavaScript `Math.round(x * 10000) / 10000`: used for `commonRiseSol`. -/
def jsRound4 (x : ℚ) : ℚ := (round (x * 10000) : ℤ) / 10000

/-- MongoDB `$round` to an integer: round half to even. -/
def mongoRoundInt (x : ℚ) : ℤ :=
  if Int.fract x = 1 / 2 then (if 2 ∣ ⌈x⌉ then ⌈x⌉ else ⌊x⌋) else round x

/-- MongoDB `{ $round: [x, 2] }`. -/
def mongoRound2 (x : ℚ) : ℚ := (mongoRoundInt (x * 100) : ℚ) / 100

/-- MongoDB `{ $round: [x, 4] }`. -/
def mongoRound4 (x : ℚ) : ℚ := (mongoRoundInt (x * 10000) : ℚ) / 10000

/-- A minted-token record (`ITokenInfo` of `Token.model`), restricted to the
fields the analytics engine reads.  All numeric schema fields carry a default,
so they are always-present numbers, modelled as `ℚ`; `postMintBundle` is kept
as its two components used for grouping. -/
structure Token where
  mint : String
  mintTime : Int
  createdAt : Int
  migrated : Bool
  maxSol : ℚ
  maxPrice : ℚ
  mintSlotSol : ℚ
  firstSlotSol : ℚ
  mintBuyAmt : ℚ
  mintPattern : String
  unitPrice : ℚ
  unitLimit : ℚ
  bundleSize : ℚ
  bundleTotalBuySol : ℚ
deriving DecidableEq, Repr, Inhabited

/-- The `GroupingCriteria` record: which dimensions the composite key uses. -/
structure GroupingCriteria where
  mintPattern : Bool
  unitPrice : Bool
  unitLimit : Bool
  postMintBundle : Bool
deriving DecidableEq, Repr

/-- The `QueryFilters` record.  All fields are optional in the source; the
service destructures them with defaults `minMaxSol = 0` and `winPercent = 70`,
applied at the use sites below. -/
structure QueryFilters where
  minMaxSol : Option ℚ
  startTime : Option Int
  endTime : Option Int
  mintPattern : Option String
  unitPrice : Option ℚ
  unitLimit : Option ℚ
  winPercent : Option ℚ
deriving DecidableEq, Repr

/-- `QueryFilters` with every field absent. -/
def QueryFilters.none : QueryFilters := ⟨.none, .none, .none, .none, .none, .none, .none⟩

/-- Replace the `winPercent` field of a `QueryFilters`. -/
def QueryFilters.withWinPercent (f : QueryFilters) (w : Option ℚ) : QueryFilters :=
  ⟨f.minMaxSol, f.startTime, f.endTime, f.mintPattern, f.unitPrice, f.unitLimit, w⟩

/-- The `$match` stage built from the filters: `maxSol ≥ minMaxSol` is imposed
only when `minMaxSol > 0`; the `mintPattern` equality is imposed only when the
supplied pattern is truthy (JavaScript `if (mintPattern)`), i.e. non-empty. -/
def matchesFilters (f : QueryFilters) (t : Token) : Bool :=
  (if 0 < f.minMaxSol.getD 0 then decide (f.minMaxSol.getD 0 ≤ t.maxSol) else true) &&
  (match f.startTime with | some s => decide (s ≤ t.mintTime) | none => true) &&
  (match f.endTime with | some e => decide (t.mintTime ≤ e) | none => true) &&
  (match f.mintPattern with
   | some p => if p = "" then true else decide (t.mintPattern = p)
   | none => true) &&
  (match f.unitPrice with | some up => decide (t.unitPrice = up) | none => true) &&
  (match f.unitLimit with | some ul => decide (t.unitLimit = ul) | none => true)

/-- The composite `_id` of the `$group` stage: one optional component per
enabled dimension (the bundle dimension contributes its size and its total buy
volume rounded to two decimals). -/
structure GroupKey where
  mintPattern : Option String
  unitPrice : Option ℚ
  unitLimit : Option ℚ
  bundleSize : Option ℚ
  totalBuySol : Option ℚ
deriving DecidableEq, Repr

/-- Composite key of a record under the given grouping criteria. -/
def keyOf (c : GroupingCriteria) (t : Token) : GroupKey :=
  ⟨if c.mintPattern then some t.mintPattern else none,
   if c.unitPrice then some t.unitPrice else none,
   if c.unitLimit then some t.unitLimit else none,
   if c.postMintBundle then some t.bundleSize else none,
   if c.postMintBundle then some (mongoRound2 t.bundleTotalBuySol) else none⟩

/-- Accumulated result of the `$group` stage for one key. -/
structure RawGroup where
  key : GroupKey
  totalTokens : ℕ
  migratedTokens : ℕ
  totalMaxSol : ℚ
  avgMaxSol : ℚ
  tokens : List Token
deriving DecidableEq, Repr

/-- The `$group` accumulators over the member list of one key:
`totalTokens = $sum 1`, `migratedTokens = $sum (cond migrated 1 0)`,
`totalMaxSol = $sum maxSol`, `avgMaxSol = $avg maxSol`, `tokens = $push`. -/
def rawGroupOf (k : GroupKey) (ms : List Token) : RawGroup :=
  ⟨k, ms.length, (ms.filter (fun t => t.migrated)).length,
   (ms.map (fun t => t.maxSol)).sum,
   (ms.map (fun t => t.maxSol)).sum / ms.length,
   ms⟩

/-- The unrounded `migrationRate` computed in the `$project` stage:
`migratedTokens / totalTokens * 100`. -/
def rateOf (g : RawGroup) : ℚ := (g.migratedTokens : ℚ) / g.totalTokens * 100

/-- Comparator of the `$sort { migrationRate: -1, totalTokens: -1 }` stage:
`a` may precede `b` iff `a` has strictly larger rate, or equal rate and at
least as many tokens. -/
def groupLE (a b : RawGroup) : Prop :=
  rateOf b < rateOf a ∨ (rateOf a = rateOf b ∧ b.totalTokens ≤ a.totalTokens)

instance : DecidableRel groupLE := fun _ _ =>
  inferInstanceAs (Decidable (_ ∨ _))

instance : IsTotal RawGroup groupLE :=
  ⟨fun a b => by
    rcases lt_trichotomy (rateOf a) (rateOf b) with h | h | h
    · exact Or.inr (Or.inl h)
    · rcases Nat.le_total b.totalTokens a.totalTokens with h' | h'
      · exact Or.inl (Or.inr ⟨h, h'⟩)
      · exact Or.inr (Or.inr ⟨h.symm, h'⟩)
    · exact Or.inl (Or.inl h)⟩

instance : IsTrans RawGroup groupLE :=
  ⟨fun a b c hab hbc => by
    rcases hab with hab | ⟨hab, hab'⟩ <;> rcases hbc with hbc | ⟨hbc, hbc'⟩
    · exact Or.inl (hbc.trans hab)
    · exact Or.inl (hbc ▸ hab)
    · exact Or.inl (hab ▸ hbc)
    · exact Or.inr ⟨hab.trans hbc, hbc'.trans hab'⟩⟩

/-- Per-record rise in SOL (lines 287–296 of the service): baseline is
`mintSlotSol` unless it is below `0.05`, in which case `mintBuyAmt` is used;
the rise is `maxSol` minus the baseline.  (The `|| 0` coercions of the source
are identities here because the schema defaults make the fields
always-present numbers.) -/
def riseSol (t : Token) : ℚ :=
  t.maxSol - (if t.mintSlotSol < 0.05 then t.mintBuyAmt else t.mintSlotSol)

/-- Index used by the percentile estimator:
`Math.floor(riseSols.length * (1 - winPercent / 100))`. -/
def percentileIndex (n : ℕ) (p : ℚ) : ℤ := ⌊(n : ℚ) * (1 - p / 100)⌋

/-- The percentile estimator (lines 297–303): sort the rises ascending and
take the element at `percentileIndex`; an empty list yields `0`.  A JavaScript
out-of-bounds access yields `undefined` (hence `NaN` downstream), modelled as
`none`. -/
def commonRise (rises : List ℚ) (p : ℚ) : Option ℚ :=
  let sorted := List.insertionSort (fun a b : ℚ => a ≤ b) rises
  if 0 < sorted.length then
    (let i := percentileIndex sorted.length p
     if h : 0 ≤ i ∧ i.toNat < sorted.length then some (sorted.get ⟨i.toNat, h.2⟩)
     else none)
  else some 0

/-- The per-member record returned inside `TokenGroupStats.tokens` (the final
`map` keeps these seven fields). -/
structure TokenSummary where
  mint : String
  mintTime : Int
  migrated : Bool
  maxSol : ℚ
  maxPrice : ℚ
  mintSlotSol : ℚ
  mintBuyAmt : ℚ
deriving DecidableEq, Repr

/-- Projection of a stored record to the returned member record. -/
def summarize (t : Token) : TokenSummary :=
  ⟨t.mint, t.mintTime, t.migrated, t.maxSol, t.maxPrice, t.mintSlotSol, t.mintBuyAmt⟩

/-- One group of the result of `fetchProfitableTokenGroupsWithMigration`.
The presentation-only `groupKey` string is not modelled; `commonRiseSol` is
`none` when the percentile access fell out of bounds (`NaN` in the source). -/
structure TokenGroupStats where
  groupIdentifier : GroupKey
  totalTokens : ℕ
  migratedTokens : ℕ
  migrationRate : ℚ
  profitableTokens : ℕ
  avgMaxSol : ℚ
  totalMaxSol : ℚ
  commonRiseSol : Option ℚ
  tokens : List TokenSummary
deriving DecidableEq, Repr

/-- The final `results.map` of the service applied to one aggregated group:
round the migration rate to two decimals (`Math.round(x*100)/100`), copy
`profitableTokens` from `totalTokens` (the `$project` aliases it), compute the
common rise at the effective win percentage and round it to four decimals. -/
def finalizeGroup (winPercent : ℚ) (g : RawGroup) : TokenGroupStats :=
  ⟨g.key, g.totalTokens, g.migratedTokens,
   jsRound2 (rateOf g),
   g.totalTokens,
   mongoRound4 g.avgMaxSol,
   mongoRound4 g.totalMaxSol,
   (commonRise (g.tokens.map riseSol) winPercent).map jsRound4,
   g.tokens.map summarize⟩

/-- The member list of the group with key `k`: the matched records whose
composite key is `k`. -/
def groupMembers (c : GroupingCriteria) (f : QueryFilters) (k : GroupKey)
    (ts : List Token) : List Token :=
  (ts.filter (matchesFilters f)).filter (fun t => decide (keyOf c t = k))

/-- `QueryService.fetchProfitableTokenGroupsWithMigration`, over an explicit
record list: `$match` by the filters, `$group` by the composite key, `$project`
(with `profitableTokens` aliased to `totalTokens`), `$sort` by migration rate
then total tokens, both descending, then the in-process per-group `map`. -/
def fetchProfitableTokenGroupsWithMigration (c : GroupingCriteria) (f : QueryFilters)
    (ts : List Token) : List TokenGroupStats :=
  (List.insertionSort groupLE
    ((((ts.filter (matchesFilters f)).map (keyOf c)).dedup).map
      (fun k => rawGroupOf k (groupMembers c f k ts)))).map
    (finalizeGroup ((f.winPercent).getD 70))

/-- `QueryService.getTopMigratingGroups`: keep groups with at least two
members, truncate to `limit` (source default 10). -/
def getTopMigratingGroups (c : GroupingCriteria) (f : QueryFilters) (limit : ℕ)
    (ts : List Token) : List TokenGroupStats :=
  ((fetchProfitableTokenGroupsWithMigration c f ts).filter
      (fun g => decide (2 ≤ g.totalTokens))).take limit

/-!
The sell-threshold simulator `QueryService.findProfitableTokenGroups` of
`query.service.ts`, translated pipeline stage by pipeline stage.
-/

/-- Sort key selector of the simulator (`options.sortBy`). -/
inductive SortField where
  | avgRiseSol
  | maxRiseSol
  | totalTokens
deriving DecidableEq, Repr

/-- Options of `findProfitableTokenGroups` (source defaults:
`groupByComputeUnits = false`, `minRiseSol = 0`, `minTokensInGroup = 2`,
`limit = 50`, `sortBy = avgRiseSol`; `daysBack` enters through the explicit
`startDate` cutoff argument below). -/
structure SimOptions where
  groupByComputeUnits : Bool
  minRiseSol : ℚ
  minTokensInGroup : ℕ
  limit : ℕ
  sortBy : SortField
deriving DecidableEq, Repr

/-- The default simulator options. -/
def SimOptions.default : SimOptions := ⟨false, 0, 2, 50, .avgRiseSol⟩

/-- The `$addFields buyPriceSol` stage: the lower of `mintSlotSol` and
`firstSlotSol` (`$cond` on `mintSlotSol ≤ firstSlotSol`). -/
def buyPriceSol (t : Token) : ℚ :=
  if t.mintSlotSol ≤ t.firstSlotSol then t.mintSlotSol else t.firstSlotSol

/-- The `$addFields riseSol` stage: `maxSol - buyPriceSol`. -/
def pipelineRiseSol (t : Token) : ℚ := t.maxSol - buyPriceSol t

/-- Grouping `_id` of the simulator: `mintPattern`, plus the compute-unit
settings when `groupByComputeUnits` is set. -/
structure SimKey where
  mintPattern : String
  unitPrice : Option ℚ
  unitLimit : Option ℚ
deriving DecidableEq, Repr

/-- Composite key of a record in the simulator pipeline. -/
def simKeyOf (o : SimOptions) (t : Token) : SimKey :=
  ⟨t.mintPattern,
   if o.groupByComputeUnits then some t.unitPrice else none,
   if o.groupByComputeUnits then some t.unitLimit else none⟩

/-- The fixed multiplier ladder of the `thresholdCandidates` stage. -/
def thresholdMultipliers : List ℚ := [0.3, 0.4, 0.5, 0.6, 0.7, 0.8, 0.9]

/-- Per-member simulated profit at threshold `t` (the `profitLoss` `$cond`):
a win (`rise ≥ t`) captures exactly `t`; a loss captures the rise when it is
positive and `0` otherwise. -/
def profitLoss (t r : ℚ) : ℚ :=
  if t ≤ r then t else (if 0 < r then r else 0)

/-- One entry of `thresholdScores` / `allThresholdOptions`. -/
structure TScore where
  threshold : ℚ
  winCount : ℕ
  lossCount : ℕ
  winRate : ℚ
  totalProfit : ℚ
  avgProfit : ℚ
  profitabilityScore : ℚ
deriving DecidableEq, Repr, Inhabited

/-- The `thresholdSimulations` / `thresholdAnalysis` / `thresholdScores`
stages for one candidate threshold over the rises of a group of `n` members:
wins are the members with `rise ≥ t`, losses the others; `totalProfit` and
`avgProfit` come from `profitLoss`; `winRate = winCount / totalTokens`;
`profitabilityScore = winRate * avgProfit`. -/
def scoreAt (rises : List ℚ) (n : ℕ) (t : ℚ) : TScore :=
  let wins := (rises.filter (fun r => decide (t ≤ r))).length
  let losses := (rises.filter (fun r => !(decide (t ≤ r)))).length
  let profits := rises.map (profitLoss t)
  let total := profits.sum
  let avg := total / profits.length
  let wr := (wins : ℚ) / n
  ⟨t, wins, losses, wr, total, avg, wr * avg⟩

/-- Risk label of the final `$project` stage. -/
inductive RiskLevel where
  | HIGH
  | MEDIUM
  | LOW
deriving DecidableEq, Repr

/-- The `riskLevel` `$cond` chain applied to the optimal candidate's win
rate. -/
def riskOf (w : ℚ) : RiskLevel :=
  if w < 0.6 then .HIGH else (if w < 0.75 then .MEDIUM else .LOW)

/-- Per-member record pushed into the group (`{mint, riseSol, maxSol,
buyPriceSol}`). -/
structure SimTokenOut where
  mint : String
  riseSol : ℚ
  maxSol : ℚ
  buyPriceSol : ℚ
deriving DecidableEq, Repr

/-- One group of the simulator result, as shaped by the final `$project`. -/
structure SimGroup where
  mintPattern : String
  unitPrice : Option ℚ
  unitLimit : Option ℚ
  totalTokens : ℕ
  avgRiseSol : ℚ
  maxRiseSol : ℚ
  minRiseSol : ℚ
  avgMaxSol : ℚ
  avgBuyPriceSol : ℚ
  totalRiseSol : ℚ
  profitabilityScore : ℚ
  recommendedSellThreshold : ℚ
  recommendedWinRate : ℚ
  recommendedWinCount : ℕ
  recommendedLossCount : ℕ
  recommendedAvgProfit : ℚ
  recommendedTotalProfit : ℚ
  conservativeThreshold : ℚ
  conservativeWinRate : ℚ
  conservativeWinCount : ℕ
  conservativeLossCount : ℕ
  conservativeAvgProfit : ℚ
  aggressiveThreshold : ℚ
  aggressiveWinRate : ℚ
  aggressiveWinCount : ℕ
  aggressiveLossCount : ℕ
  aggressiveAvgProfit : ℚ
  recommendedSellSol : ℚ
  conservativeSellSol : ℚ
  aggressiveSellSol : ℚ
  riskLevel : RiskLevel
  allThresholdOptions : List TScore
  tokens : List SimTokenOut

/-- The whole per-group computation of the simulator pipeline (grouping
accumulators, candidate ladder, per-candidate scores, the three `$sortArray`
selections and the projected shape). -/
def buildSimGroup (k : SimKey) (ms : List Token) : SimGroup :=
  let rises := ms.map pipelineRiseSol
  let n := ms.length
  let avgRise := rises.sum / n
  let candidates := thresholdMultipliers.map (fun m => avgRise * m)
  let scores := candidates.map (scoreAt rises n)
  let optimal :=
    (List.insertionSort (fun a b : TScore => b.profitabilityScore ≤ a.profitabilityScore)
      scores).headI
  let conservative :=
    (List.insertionSort (fun a b : TScore => b.winRate ≤ a.winRate) scores).headI
  let aggressive :=
    (List.insertionSort (fun a b : TScore => b.avgProfit ≤ a.avgProfit) scores).headI
  let avgBuy := (ms.map buyPriceSol).sum / n
  ⟨k.mintPattern, k.unitPrice, k.unitLimit,
   n,
   avgRise,
   (rises.max?).getD 0,
   (rises.min?).getD 0,
   (ms.map (fun t => t.maxSol)).sum / n,
   avgBuy,
   rises.sum,
   avgRise * n,
   optimal.threshold, optimal.winRate * 100, optimal.winCount, optimal.lossCount,
   optimal.avgProfit, optimal.totalProfit,
   conservative.threshold, conservative.winRate * 100, conservative.winCount,
   conservative.lossCount, conservative.avgProfit,
   aggressive.threshold, aggressive.winRate * 100, aggressive.winCount,
   aggressive.lossCount, aggressive.avgProfit,
   avgBuy + optimal.threshold,
   avgBuy + conservative.threshold,
   avgBuy + aggressive.threshold,
   riskOf optimal.winRate,
   scores,
   (ms.map (fun t => ⟨t.mint, pipelineRiseSol t, t.maxSol, buyPriceSol t⟩)).take 5⟩

/-- Comparator of the final `$sort` stage of the simulator (descending on the
selected field). -/
def simSortLE (f : SortField) (a b : SimGroup) : Prop :=
  match f with
  | .avgRiseSol => b.avgRiseSol ≤ a.avgRiseSol
  | .maxRiseSol => b.maxRiseSol ≤ a.maxRiseSol
  | .totalTokens => b.totalTokens ≤ a.totalTokens

instance : DecidableRel (simSortLE f) := fun a b => by
  unfold simSortLE
  cases f <;> infer_instance

/-- The records surviving the two `$match` stages of the simulator pipeline
(non-empty pattern created on or after the cutoff; rise at least
`minRiseSol`). -/
def simMatched (o : SimOptions) (startDate : Int) (ts : List Token) : List Token :=
  (ts.filter (fun t => !(decide (t.mintPattern = "")) && decide (startDate ≤ t.createdAt))).filter
    (fun t => decide (o.minRiseSol ≤ pipelineRiseSol t))

/-- The member list of the simulator group with key `k`. -/
def simMembers (o : SimOptions) (startDate : Int) (k : SimKey) (ts : List Token) : List Token :=
  (simMatched o startDate ts).filter (fun t => decide (simKeyOf o t = k))

/-- `QueryService.findProfitableTokenGroups` over an explicit record list.
`startDate` is the `daysBack` cutoff computed by the caller from the clock:
`$match` keeps non-empty patterns created on or after it; rises are derived
and filtered by `minRiseSol`; records are grouped, groups below
`minTokensInGroup` dropped, each group scored over the candidate ladder,
sorted by the selected field descending and truncated to `limit`. -/
def findProfitableTokenGroups (o : SimOptions) (startDate : Int)
    (ts : List Token) : List SimGroup :=
  (List.insertionSort (simSortLE o.sortBy)
    (((((simMatched o startDate ts).map (simKeyOf o)).dedup).filter
        (fun k => decide (o.minTokensInGroup ≤ (simMembers o startDate k ts).length))).map
      (fun k => buildSimGroup k (simMembers o startDate k ts)))).take o.limit

/-- The grouping key a simulator result group carries in its projected
fields. -/
def simKeyOfGroup (g : SimGroup) : SimKey := ⟨g.mintPattern, g.unitPrice, g.unitLimit⟩

/-!
### Helper lemmas
-/

theorem round_mono_rat {x y : ℚ} (h : x ≤ y) : round x ≤ round y := by
  rw [round_eq, round_eq]
  exact Int.floor_le_floor (by linarith)

theorem jsRound2_mono {x y : ℚ} (h : x ≤ y) : jsRound2 x ≤ jsRound2 y := by
  unfold jsRound2
  have h' : round (x * 100) ≤ round (y * 100) := round_mono_rat (by nlinarith)
  have h'' : ((round (x * 100) : ℤ) : ℚ) ≤ ((round (y * 100) : ℤ) : ℚ) := by exact_mod_cast h'
  linarith

theorem jsRound2_nonneg {x : ℚ} (h : 0 ≤ x) : 0 ≤ jsRound2 x := by
  have h0 : round (0 : ℚ) ≤ round (x * 100) := round_mono_rat (by nlinarith)
  rw [round_zero] at h0
  unfold jsRound2
  have h1 : (0 : ℚ) ≤ ((round (x * 100) : ℤ) : ℚ) := by exact_mod_cast h0
  linarith

theorem jsRound2_le_100 {x : ℚ} (h : x ≤ 100) : jsRound2 x ≤ 100 := by
  have h1 : round (x * 100) ≤ round (((10000 : ℤ) : ℚ)) := round_mono_rat (by push_cast; nlinarith)
  rw [round_intCast] at h1
  unfold jsRound2
  have h2 : ((round (x * 100) : ℤ) : ℚ) ≤ 10000 := by exact_mod_cast h1
  linarith

/-- Every group returned by the migration query is the finalization of the
aggregation over its own (non-empty) member list, recoverable from the
`groupIdentifier` it carries. -/
theorem mem_fetch_eq {c : GroupingCriteria} {f : QueryFilters} {ts : List Token}
    {g : TokenGroupStats}
    (hg : g ∈ fetchProfitableTokenGroupsWithMigration c f ts) :
    ∃ k, g.groupIdentifier = k ∧ groupMembers c f k ts ≠ [] ∧
      g = finalizeGroup (f.winPercent.getD 70) (rawGroupOf k (groupMembers c f k ts)) := by
  unfold fetchProfitableTokenGroupsWithMigration at hg
  simp only [List.mem_map] at hg
  obtain ⟨r, hr, rfl⟩ := hg
  rw [List.mem_insertionSort] at hr
  simp only [List.mem_map] at hr
  obtain ⟨k, hk, rfl⟩ := hr
  refine ⟨k, rfl, ?_, rfl⟩
  rw [List.mem_dedup] at hk
  obtain ⟨t, ht, hkt⟩ := List.mem_map.mp hk
  refine List.ne_nil_of_mem (a := t) ?_
  unfold groupMembers
  rw [List.mem_filter]
  exact ⟨ht, by simp [hkt]⟩

/-- Every group returned by the threshold simulator is `buildSimGroup` of its
own (non-empty) member list, recoverable from the projected key fields. -/
theorem mem_find_eq {o : SimOptions} {sd : Int} {ts : List Token} {g : SimGroup}
    (hg : g ∈ findProfitableTokenGroups o sd ts) :
    ∃ k, simKeyOfGroup g = k ∧ simMembers o sd k ts ≠ [] ∧
      g = buildSimGroup k (simMembers o sd k ts) := by
  unfold findProfitableTokenGroups at hg
  have hg' := List.mem_of_mem_take hg
  rw [List.mem_insertionSort] at hg'
  simp only [List.mem_map] at hg'
  obtain ⟨k, hk, rfl⟩ := hg'
  refine ⟨k, rfl, ?_, rfl⟩
  have hk' := List.mem_of_mem_filter hk
  rw [List.mem_dedup] at hk'
  obtain ⟨t, ht, hkt⟩ := List.mem_map.mp hk'
  refine List.ne_nil_of_mem (a := t) ?_
  unfold simMembers
  rw [List.mem_filter]
  exact ⟨ht, by simp [hkt]⟩

theorem dedup_map_const {α β : Type} [DecidableEq β] {l : List α} (k : β) (hl : l ≠ []) :
    (l.map (fun _ => k)).dedup = [k] := by
  induction l with
  | nil => exact absurd rfl hl
  | cons a l ih =>
    cases l with
    | nil => simp
    | cons b l' =>
      rw [List.map_cons, List.dedup_cons_of_mem (by simp)]
      exact ih (by simp)

/-!
### Concrete example inputs used by the witnesses
-/

/-- Six records of one pattern group, four of them migrated, whose rises are
`[0.2, 0.4, 1.9, 2.1, 3.8, 6.5]` (baseline `mintSlotSol = 1` throughout). -/
def exTokens : List Token :=
  [⟨"m1", 0, 0, true, 1.2, 0, 1, 1, 0, "a", 0, 0, 0, 0⟩,
   ⟨"m2", 0, 0, true, 1.4, 0, 1, 1, 0, "a", 0, 0, 0, 0⟩,
   ⟨"m3", 0, 0, true, 2.9, 0, 1, 1, 0, "a", 0, 0, 0, 0⟩,
   ⟨"m4", 0, 0, true, 3.1, 0, 1, 1, 0, "a", 0, 0, 0, 0⟩,
   ⟨"m5", 0, 0, false, 4.8, 0, 1, 1, 0, "a", 0, 0, 0, 0⟩,
   ⟨"m6", 0, 0, false, 7.5, 0, 1, 1, 0, "a", 0, 0, 0, 0⟩]

/-- Group by `mintPattern` only. -/
def exCriteria : GroupingCriteria := ⟨true, false, false, false⟩

unseal Rat.add Rat.sub Rat.mul Rat.inv Rat.ofScientific in
theorem fetchEx_ne :
    fetchProfitableTokenGroupsWithMigration exCriteria QueryFilters.none exTokens ≠ [] := by
  decide

/-- The single group the engine returns on `exTokens`. -/
def gEx : TokenGroupStats :=
  (fetchProfitableTokenGroupsWithMigration exCriteria QueryFilters.none exTokens).head fetchEx_ne

/-!
### Claims
-/

unseal Rat.add Rat.sub Rat.mul Rat.inv Rat.ofScientific in
/-- C1: for every rise list and every win-percentage `p ∈ (0, 100]`, the
percentile estimator returns `0` on the empty list and otherwise the element
of the ascending-sorted rise list at 0-indexed rank
`floor(n * (1 - p/100))` (which is in bounds); when the caller supplies no
`winPercent`, the engine behaves as with `p = 70`; and on the rises
`[0.2, 0.4, 1.9, 2.1, 3.8, 6.5]` with `p = 70` the estimate is `0.4`. -/
theorem percentile_estimator_spec (rises : List ℚ) (p : ℚ)
    (hp0 : 0 < p) (hp1 : p ≤ 100) :
    (rises = [] → commonRise rises p = some 0) ∧
    (rises ≠ [] →
      ∃ hidx : (percentileIndex rises.length p).toNat < rises.length,
        commonRise rises p =
          some ((List.insertionSort (fun a b : ℚ => a ≤ b) rises).get
            ⟨(percentileIndex rises.length p).toNat, by simpa using hidx⟩)) ∧
    (∀ (c : GroupingCriteria) (f : QueryFilters) (ts : List Token),
      f.winPercent = Option.none →
      fetchProfitableTokenGroupsWithMigration c f ts =
        fetchProfitableTokenGroupsWithMigration c (f.withWinPercent (some 70)) ts) ∧
    commonRise [0.2, 0.4, 1.9, 2.1, 3.8, 6.5] 70 = some 0.4 := by
  refine ⟨?_, ?_, ?_, by decide⟩
  · rintro rfl
    simp [commonRise]
  · intro hne
    have hn : 0 < rises.length := List.length_pos.mpr hne
    have hx0 : 0 ≤ (rises.length : ℚ) * (1 - p / 100) := by
      apply mul_nonneg (by positivity)
      linarith
    have hxn : (rises.length : ℚ) * (1 - p / 100) < rises.length := by
      have h1 : 1 - p / 100 < 1 := by linarith
      calc (rises.length : ℚ) * (1 - p / 100)
          < (rises.length : ℚ) * 1 := by
            apply mul_lt_mul_of_pos_left h1 (by exact_mod_cast hn)
        _ = rises.length := mul_one _
    have hi0 : 0 ≤ percentileIndex rises.length p := Int.le_floor.mpr (by push_cast; linarith)
    have hin : percentileIndex rises.length p < (rises.length : ℤ) :=
      Int.floor_lt.mpr (by push_cast; linarith)
    have hidx : (percentileIndex rises.length p).toNat < rises.length :=
      (Int.toNat_lt hi0).mpr hin
    refine ⟨hidx, ?_⟩
    have hlen : (List.insertionSort (fun a b : ℚ => a ≤ b) rises).length = rises.length :=
      List.length_insertionSort _ _
    unfold commonRise
    simp only [hlen]
    rw [if_pos hn, dif_pos ⟨hi0, hidx⟩]
  · intro c f ts hw
    cases f with
    | mk mms st et mp up ul w =>
      cases hw
      rfl

/-- C1 witness: the estimator on the worked example of the claim. -/
theorem percentile_estimator_spec_witness :
    commonRise [0.2, 0.4, 1.9, 2.1, 3.8, 6.5] 70 = some 0.4 :=
  (percentile_estimator_spec [0.2, 0.4, 1.9, 2.1, 3.8, 6.5] 70 (by norm_num)
    (by norm_num)).2.2.2

/-- C3: every returned group has `migrationRate` equal to
`migratedCount / totalCount × 100` rounded to two decimals, the rate lies in
`[0, 100]`, and `migratedTokens` counts exactly the member records whose
`migrated` flag is set. -/
theorem migration_rate_spec (c : GroupingCriteria) (f : QueryFilters) (ts : List Token)
    (g : TokenGroupStats) (hg : g ∈ fetchProfitableTokenGroupsWithMigration c f ts) :
    g.migrationRate = jsRound2 ((g.migratedTokens : ℚ) / (g.totalTokens : ℚ) * 100) ∧
    0 ≤ g.migrationRate ∧ g.migrationRate ≤ 100 ∧
    g.migratedTokens = (g.tokens.filter (fun t => t.migrated)).length := by
  obtain ⟨k, -, hne, hgeq⟩ := mem_fetch_eq hg
  subst hgeq
  set ms := groupMembers c f k ts with hms
  have hn : 0 < ms.length := List.length_pos.mpr hne
  have hmn : (ms.filter (fun t => t.migrated)).length ≤ ms.length :=
    List.length_filter_le _ _
  have hrate : rateOf (rawGroupOf k ms) =
      ((ms.filter (fun t => t.migrated)).length : ℚ) / (ms.length : ℚ) * 100 := rfl
  have h0 : 0 ≤ rateOf (rawGroupOf k ms) := by
    rw [hrate]
    positivity
  have h100 : rateOf (rawGroupOf k ms) ≤ 100 := by
    rw [hrate]
    have hdiv : ((ms.filter (fun t => t.migrated)).length : ℚ) / (ms.length : ℚ) ≤ 1 :=
      (div_le_one (by exact_mod_cast hn)).mpr (by exact_mod_cast hmn)
    nlinarith
  refine ⟨rfl, jsRound2_nonneg h0, jsRound2_le_100 h100, ?_⟩
  show (ms.filter (fun t => t.migrated)).length =
    ((ms.map summarize).filter (fun t => t.migrated)).length
  rw [List.filter_map, List.length_map]
  rfl

unseal Rat.add Rat.sub Rat.mul Rat.inv Rat.ofScientific in
/-- C3 witness: on the six-record, four-migrated example group the rate is
`66.67` and lies in `[0, 100]`. -/
theorem migration_rate_spec_witness :
    gEx.migrationRate = 66.67 ∧ 0 ≤ gEx.migrationRate ∧ gEx.migrationRate ≤ 100 :=
  ⟨by decide,
   (migration_rate_spec _ _ _ gEx (List.head_mem fetchEx_ne)).2.1,
   (migration_rate_spec _ _ _ gEx (List.head_mem fetchEx_ne)).2.2.1⟩

/-- C9: in every returned group, and under every filter configuration,
`profitableTokens` is exactly the group's `totalTokens` (an alias, not a
filtered subset). -/
theorem profitable_tokens_alias (c : GroupingCriteria) (f : QueryFilters) (ts : List Token)
    (g : TokenGroupStats) (hg : g ∈ fetchProfitableTokenGroupsWithMigration c f ts) :
    g.profitableTokens = g.totalTokens := by
  obtain ⟨k, -, -, hgeq⟩ := mem_fetch_eq hg
  rw [hgeq]
  rfl

/-- C9 witness. -/
theorem profitable_tokens_alias_witness : gEx.profitableTokens = gEx.totalTokens :=
  profitable_tokens_alias _ _ _ gEx (List.head_mem fetchEx_ne)

/-- Migration rate of a returned group, recomputed (unrounded) from the
counters it carries. -/
def statRate (g : TokenGroupStats) : ℚ := (g.migratedTokens : ℚ) / g.totalTokens * 100

/-- Descending rate order on returned groups, ties broken by descending
member count. -/
def statOrder (a b : TokenGroupStats) : Prop :=
  statRate b < statRate a ∨ (statRate a = statRate b ∧ b.totalTokens ≤ a.totalTokens)

unseal Rat.add Rat.sub Rat.mul Rat.inv Rat.ofScientific in
theorem topEx_ne : getTopMigratingGroups exCriteria QueryFilters.none 10 exTokens ≠ [] := by
  decide

/-- The first group `getTopMigratingGroups` returns on `exTokens`. -/
def gTopEx : TokenGroupStats :=
  (getTopMigratingGroups exCriteria QueryFilters.none 10 exTokens).head topEx_ne

/-- C10: the list returned by the engine is sorted by migration rate
descending, ties by total tokens descending (hence also by the rounded
`migrationRate` field descending); `getTopMigratingGroups` equals that list
filtered to groups of at least 2 members and truncated to the limit, so it
preserves the order, every group it returns has at least 2 members, and its
length is at most the limit. -/
theorem groups_sorted_spec (c : GroupingCriteria) (f : QueryFilters) (ts : List Token)
    (limit : ℕ) :
    (fetchProfitableTokenGroupsWithMigration c f ts).Pairwise statOrder ∧
    (fetchProfitableTokenGroupsWithMigration c f ts).Pairwise
      (fun a b => b.migrationRate ≤ a.migrationRate) ∧
    getTopMigratingGroups c f limit ts =
      ((fetchProfitableTokenGroupsWithMigration c f ts).filter
        (fun g => decide (2 ≤ g.totalTokens))).take limit ∧
    (getTopMigratingGroups c f limit ts).Pairwise statOrder ∧
    (getTopMigratingGroups c f limit ts).Pairwise
      (fun a b => b.migrationRate ≤ a.migrationRate) ∧
    (∀ g ∈ getTopMigratingGroups c f limit ts, 2 ≤ g.totalTokens) ∧
    (getTopMigratingGroups c f limit ts).length ≤ limit := by
  have key : ∀ (raw : List RawGroup) (w : ℚ),
      ((List.insertionSort groupLE raw).map (finalizeGroup w)).Pairwise
        (fun a b => statOrder a b ∧ b.migrationRate ≤ a.migrationRate) := by
    intro raw w
    refine (List.sorted_insertionSort groupLE raw).map _ ?_
    intro a b hab
    constructor
    · have hsa : statRate (finalizeGroup w a) = rateOf a := rfl
      have hsb : statRate (finalizeGroup w b) = rateOf b := rfl
      unfold statOrder
      rw [hsa, hsb]
      exact hab
    · show jsRound2 (rateOf b) ≤ jsRound2 (rateOf a)
      rcases hab with h | ⟨h, -⟩
      · exact jsRound2_mono h.le
      · rw [h]
  have hfetch :
      (fetchProfitableTokenGroupsWithMigration c f ts).Pairwise
        (fun a b => statOrder a b ∧ b.migrationRate ≤ a.migrationRate) := key _ _
  have hsub : List.Sublist (getTopMigratingGroups c f limit ts)
      (fetchProfitableTokenGroupsWithMigration c f ts) :=
    (List.take_sublist _ _).trans (List.filter_sublist _)
  have htop := List.Pairwise.sublist hsub hfetch
  refine ⟨hfetch.imp (fun h => h.1), hfetch.imp (fun h => h.2), rfl,
    htop.imp (fun h => h.1), htop.imp (fun h => h.2), ?_, ?_⟩
  · intro g hg
    have hg' := List.mem_of_mem_take hg
    have := List.of_mem_filter hg'
    simpa using this
  · show (((fetchProfitableTokenGroupsWithMigration c f ts).filter _).take limit).length ≤ limit
    rw [List.length_take]
    exact min_le_left _ _

/-- C10 witness. -/
theorem groups_sorted_spec_witness :
    (getTopMigratingGroups exCriteria QueryFilters.none 10 exTokens).length ≤ 10 ∧
    2 ≤ gTopEx.totalTokens :=
  ⟨(groups_sorted_spec exCriteria QueryFilters.none exTokens 10).2.2.2.2.2.2,
   (groups_sorted_spec exCriteria QueryFilters.none exTokens 10).2.2.2.2.2.1 gTopEx
     (List.head_mem topEx_ne)⟩

/-- C5: the per-record profit derivation takes `mintSlotSol` as baseline
unless it is below the fixed threshold `0.05`, in which case it substitutes
`mintBuyAmt`, and sets `rise = maxSol - baseline`; every returned group
computes its percentile over exactly the rises of its members while
`totalTokens` counts all members (over `ℚ` every rise is a finite number, so
the `isNaN` exclusion removes nothing and the two counts agree). -/
theorem profit_derivation_spec (c : GroupingCriteria) (f : QueryFilters) (ts : List Token)
    (g : TokenGroupStats) (hg : g ∈ fetchProfitableTokenGroupsWithMigration c f ts) :
    (∀ t : Token,
      riseSol t = t.maxSol - (if t.mintSlotSol < 0.05 then t.mintBuyAmt else t.mintSlotSol)) ∧
    groupMembers c f g.groupIdentifier ts ≠ [] ∧
    g.totalTokens = (groupMembers c f g.groupIdentifier ts).length ∧
    g.commonRiseSol =
      (commonRise ((groupMembers c f g.groupIdentifier ts).map riseSol)
        (f.winPercent.getD 70)).map jsRound4 := by
  obtain ⟨k, hk, hne, hgeq⟩ := mem_fetch_eq hg
  rw [hk]
  rw [hgeq]
  exact ⟨fun _ => rfl, hne, rfl, rfl⟩

/-- C5 witness. -/
theorem profit_derivation_spec_witness :
    gEx.commonRiseSol =
      (commonRise ((groupMembers exCriteria QueryFilters.none gEx.groupIdentifier exTokens).map
        riseSol) 70).map jsRound4 :=
  (profit_derivation_spec _ _ _ gEx (List.head_mem fetchEx_ne)).2.2.2

/-- A grouping specification enabling no dimension. -/
def noDims : GroupingCriteria := ⟨false, false, false, false⟩

/-- Filters carrying an out-of-range `winPercent`. -/
def badFilters : QueryFilters := QueryFilters.none.withWinPercent (some 150)

unseal Rat.add Rat.sub Rat.mul Rat.inv Rat.ofScientific in
/-- C7 counterexample: with a grouping specification enabling no dimension and
`winPercent = 150` (outside `[0, 100]`), the engine raises no error and still
returns a computed, non-empty result — one group holding all six records —
contradicting the claim that an invalid configuration is rejected before any
aggregation and yields no computed result. -/
theorem no_validation_counterexample :
    noDims.mintPattern = false ∧ noDims.unitPrice = false ∧ noDims.unitLimit = false ∧
    noDims.postMintBundle = false ∧
    badFilters.winPercent = some 150 ∧
    (fetchProfitableTokenGroupsWithMigration noDims badFilters exTokens).length = 1 ∧
    (fetchProfitableTokenGroupsWithMigration noDims badFilters exTokens).map
      (fun g => g.totalTokens) = [6] := by
  refine ⟨rfl, rfl, rfl, rfl, rfl, ?_, ?_⟩ <;> decide

/-- C7 amended: the engine performs no fail-fast validation.  With no
dimension enabled it still returns a computed result: all matched records fall
into a single default group (and no records give the empty list); and a
`winPercent` above 100 makes the percentile access fall out of bounds,
yielding an undefined (`NaN`) common rise rather than a surfaced error. -/
theorem no_validation_amended (f : QueryFilters) (ts : List Token) :
    (ts.filter (matchesFilters f) ≠ [] →
      ∃ g, fetchProfitableTokenGroupsWithMigration noDims f ts = [g] ∧
        g.totalTokens = (ts.filter (matchesFilters f)).length ∧
        g.migratedTokens =
          ((ts.filter (matchesFilters f)).filter (fun t => t.migrated)).length) ∧
    (ts.filter (matchesFilters f) = [] →
      fetchProfitableTokenGroupsWithMigration noDims f ts = []) ∧
    (∀ p : ℚ, 100 < p → ∀ rises : List ℚ, rises ≠ [] → commonRise rises p = none) := by
  refine ⟨?_, ?_, ?_⟩
  · intro hne
    have hkeys : ((ts.filter (matchesFilters f)).map (keyOf noDims)).dedup =
        [(⟨none, none, none, none, none⟩ : GroupKey)] := by
      rw [show (ts.filter (matchesFilters f)).map (keyOf noDims) =
          (ts.filter (matchesFilters f)).map
            (fun _ => (⟨none, none, none, none, none⟩ : GroupKey)) from rfl]
      exact dedup_map_const _ hne
    have hmem : groupMembers noDims f ⟨none, none, none, none, none⟩ ts =
        ts.filter (matchesFilters f) := by
      show (ts.filter (matchesFilters f)).filter (fun _ => true) = ts.filter (matchesFilters f)
      exact List.filter_true _
    refine ⟨finalizeGroup (f.winPercent.getD 70)
      (rawGroupOf ⟨none, none, none, none, none⟩ (ts.filter (matchesFilters f))), ?_, rfl, rfl⟩
    unfold fetchProfitableTokenGroupsWithMigration
    rw [hkeys]
    simp only [List.map_cons, List.map_nil]
    rw [hmem]
    rfl
  · intro hempty
    unfold fetchProfitableTokenGroupsWithMigration
    rw [hempty]
    rfl
  · intro p hp rises hne
    have hn : 0 < rises.length := List.length_pos.mpr hne
    have hneg : (rises.length : ℚ) * (1 - p / 100) < 0 := by
      apply mul_neg_of_pos_of_neg (by exact_mod_cast hn)
      linarith
    have hi : percentileIndex rises.length p < 0 := by
      unfold percentileIndex
      exact Int.floor_lt.mpr (by push_cast; linarith)
    unfold commonRise
    simp only [List.length_insertionSort]
    rw [if_pos hn, dif_neg (fun h => absurd hi (not_lt.mpr h.1))]

unseal Rat.add Rat.sub Rat.mul Rat.inv Rat.ofScientific in
/-- C7 amended witness: the no-dimension invocation on the example records. -/
theorem no_validation_amended_witness :
    ∃ g, fetchProfitableTokenGroupsWithMigration noDims QueryFilters.none exTokens = [g] ∧
      g.totalTokens = (exTokens.filter (matchesFilters QueryFilters.none)).length ∧
      g.migratedTokens =
        ((exTokens.filter (matchesFilters QueryFilters.none)).filter
          (fun t => t.migrated)).length :=
  (no_validation_amended QueryFilters.none exTokens).1 (by decide)

/-!
### Helper lemmas for the threshold simulator claims
-/

theorem profitLoss_eq (t r : ℚ) : profitLoss t r = if t ≤ r then t else max r 0 := by
  unfold profitLoss
  rcases le_or_lt t r with h | h
  · rw [if_pos h, if_pos h]
  · rw [if_neg (not_le.mpr h), if_neg (not_le.mpr h)]
    rcases lt_or_le 0 r with h0 | h0
    · rw [if_pos h0, max_eq_left h0.le]
    · rw [if_neg (not_lt.mpr h0), max_eq_right h0]

theorem length_filter_partition (l : List ℚ) (t : ℚ) :
    (l.filter (fun r => decide (t ≤ r))).length +
      (l.filter (fun r => !(decide (t ≤ r)))).length = l.length := by
  induction l with
  | nil => rfl
  | cons a l ih =>
    by_cases h : t ≤ a
    · rw [List.filter_cons_of_pos (by simpa using h),
        List.filter_cons_of_neg (by simpa using h)]
      simp only [List.length_cons]
      omega
    · rw [List.filter_cons_of_neg (by simpa using h),
        List.filter_cons_of_pos (by simpa using h)]
      simp only [List.length_cons]
      omega

/-- Every entry of a built group's `allThresholdOptions` is the score of one
ladder multiplier. -/
theorem mem_allThresholdOptions {k : SimKey} {ms : List Token} {s : TScore}
    (hs : s ∈ (buildSimGroup k ms).allThresholdOptions) :
    ∃ m ∈ thresholdMultipliers,
      s = scoreAt (ms.map pipelineRiseSol) ms.length ((buildSimGroup k ms).avgRiseSol * m) := by
  have hs' : s ∈ (thresholdMultipliers.map (fun m => (buildSimGroup k ms).avgRiseSol * m)).map
      (scoreAt (ms.map pipelineRiseSol) ms.length) := hs
  obtain ⟨t, ht, rfl⟩ := List.mem_map.mp hs'
  obtain ⟨m, hm, rfl⟩ := List.mem_map.mp ht
  exact ⟨m, hm, rfl⟩

theorem riskOf_facts (w : ℚ) :
    riskOf w = riskOf (w * 100 / 100) ∧
    (w * 100 / 100 = 0.6 → riskOf w = RiskLevel.MEDIUM) ∧
    (w * 100 / 100 = 0.75 → riskOf w = RiskLevel.LOW) := by
  have hc : w * 100 / 100 = w := mul_div_cancel_right₀ w (by norm_num)
  rw [hc]
  refine ⟨rfl, ?_, ?_⟩ <;> rintro rfl <;> unfold riskOf
  · rw [if_neg (by norm_num), if_pos (by norm_num)]
  · rw [if_neg (by norm_num), if_neg (by norm_num)]

unseal Rat.add Rat.sub Rat.mul Rat.inv Rat.ofScientific in
theorem findEx_ne : findProfitableTokenGroups SimOptions.default 0 exTokens ≠ [] :=
  List.ne_nil_of_length_pos (by decide)

/-- The single group the simulator returns on `exTokens`. -/
def simGroupEx : SimGroup :=
  (findProfitableTokenGroups SimOptions.default 0 exTokens).head findEx_ne

unseal Rat.add Rat.sub Rat.mul Rat.inv Rat.ofScientific in
theorem scoresEx_ne : simGroupEx.allThresholdOptions ≠ [] :=
  List.ne_nil_of_length_pos (by decide)

/-- The first threshold score of the example group. -/
def sEx : TScore := simGroupEx.allThresholdOptions.head scoresEx_ne

/-- C2: in every group the simulator returns, the scored candidates are
exactly the ladder scores over the member rises: for each candidate score
`s`, `winCount` counts members with rise at least the threshold, total profit
pays the threshold to each win and `max(rise, 0)` to each loss,
`winRate = winCount / totalMembers`, `avgProfit = totalProfit / totalMembers`,
and `profitabilityScore = winRate × avgProfit`. -/
theorem threshold_simulation_spec (o : SimOptions) (sd : Int) (ts : List Token)
    (g : SimGroup) (hg : g ∈ findProfitableTokenGroups o sd ts) :
    (simMembers o sd (simKeyOfGroup g) ts).map pipelineRiseSol ≠ [] ∧
    ((simMembers o sd (simKeyOfGroup g) ts).map pipelineRiseSol).length = g.totalTokens ∧
    g.allThresholdOptions =
      (thresholdMultipliers.map (fun m => g.avgRiseSol * m)).map
        (scoreAt ((simMembers o sd (simKeyOfGroup g) ts).map pipelineRiseSol) g.totalTokens) ∧
    (∀ s ∈ g.allThresholdOptions,
      s.winCount =
        (((simMembers o sd (simKeyOfGroup g) ts).map pipelineRiseSol).filter
          (fun r => decide (s.threshold ≤ r))).length ∧
      s.totalProfit =
        (((simMembers o sd (simKeyOfGroup g) ts).map pipelineRiseSol).map
          (fun r => if s.threshold ≤ r then s.threshold else max r 0)).sum ∧
      s.winRate = (s.winCount : ℚ) / (g.totalTokens : ℚ) ∧
      s.avgProfit = s.totalProfit / (g.totalTokens : ℚ) ∧
      s.profitabilityScore = s.winRate * s.avgProfit) := by
  obtain ⟨k, hk, hne, hgeq⟩ := mem_find_eq hg
  rw [hk]
  subst hgeq
  refine ⟨fun h => hne (by simpa using h), by simp only [List.length_map]; rfl, rfl, ?_⟩
  intro s hs
  obtain ⟨m, -, rfl⟩ := mem_allThresholdOptions hs
  set rs := (simMembers o sd k ts).map pipelineRiseSol with hrs
  generalize (buildSimGroup k (simMembers o sd k ts)).avgRiseSol * m = t
  refine ⟨rfl, ?_, rfl, ?_, rfl⟩
  · show (rs.map (profitLoss t)).sum = (rs.map (fun r => if t ≤ r then t else max r 0)).sum
    rw [show profitLoss t = (fun r => if t ≤ r then t else max r 0) from funext (profitLoss_eq t)]
  · show (rs.map (profitLoss t)).sum / ((rs.map (profitLoss t)).length : ℚ) =
      (rs.map (profitLoss t)).sum / ((simMembers o sd k ts).length : ℚ)
    rw [hrs]
    simp only [List.length_map]

unseal Rat.add Rat.sub Rat.mul Rat.inv Rat.ofScientific in
/-- C2 witness. -/
theorem threshold_simulation_spec_witness :
    ((simMembers SimOptions.default 0 (simKeyOfGroup simGroupEx) exTokens).map
      pipelineRiseSol).length = simGroupEx.totalTokens :=
  (threshold_simulation_spec _ _ _ simGroupEx (List.head_mem findEx_ne)).2.1

/-- C6: for every returned group and every candidate score,
`winCount + lossCount` equals the group's total member count, and between any
two candidates the one with the larger threshold has the smaller (or equal)
win count. -/
theorem win_loss_partition_monotone (o : SimOptions) (sd : Int) (ts : List Token)
    (g : SimGroup) (hg : g ∈ findProfitableTokenGroups o sd ts) :
    (∀ s ∈ g.allThresholdOptions, s.winCount + s.lossCount = g.totalTokens) ∧
    (∀ s1 ∈ g.allThresholdOptions, ∀ s2 ∈ g.allThresholdOptions,
      s1.threshold ≤ s2.threshold → s2.winCount ≤ s1.winCount) := by
  obtain ⟨k, hk, hne, hgeq⟩ := mem_find_eq hg
  subst hgeq
  constructor
  · intro s hs
    obtain ⟨m, -, rfl⟩ := mem_allThresholdOptions hs
    show (((simMembers o sd k ts).map pipelineRiseSol).filter _).length +
      (((simMembers o sd k ts).map pipelineRiseSol).filter _).length = _
    rw [length_filter_partition]
    simp only [List.length_map]
    rfl
  · intro s1 hs1 s2 hs2 hthr
    obtain ⟨m1, -, rfl⟩ := mem_allThresholdOptions hs1
    obtain ⟨m2, -, rfl⟩ := mem_allThresholdOptions hs2
    set rs := (simMembers o sd k ts).map pipelineRiseSol with hrs
    set B := buildSimGroup k (simMembers o sd k ts) with hB
    have ht : B.avgRiseSol * m1 ≤ B.avgRiseSol * m2 := hthr
    show (rs.filter (fun r => decide (B.avgRiseSol * m2 ≤ r))).length ≤
      (rs.filter (fun r => decide (B.avgRiseSol * m1 ≤ r))).length
    rw [← List.countP_eq_length_filter, ← List.countP_eq_length_filter]
    refine List.countP_mono_left ?_
    intro r hr hp
    simp only [decide_eq_true_eq] at hp ⊢
    exact le_trans ht hp

unseal Rat.add Rat.sub Rat.mul Rat.inv Rat.ofScientific in
/-- C6 witness. -/
theorem win_loss_partition_monotone_witness :
    sEx.winCount + sEx.lossCount = simGroupEx.totalTokens :=
  (win_loss_partition_monotone _ _ _ simGroupEx (List.head_mem findEx_ne)).1 sEx
    (List.head_mem scoresEx_ne)

/-- C4: the risk label of every returned group is determined solely by the
optimal candidate's win rate (recoverable as `recommendedWinRate / 100`):
below `0.6` HIGH, in `[0.6, 0.75)` MEDIUM, at or above `0.75` LOW; both lower
bounds are inclusive, so exactly `0.6` gives MEDIUM and exactly `0.75` gives
LOW. -/
theorem risk_level_spec (o : SimOptions) (sd : Int) (ts : List Token)
    (g : SimGroup) (hg : g ∈ findProfitableTokenGroups o sd ts) :
    g.riskLevel = riskOf (g.recommendedWinRate / 100) ∧
    (g.recommendedWinRate / 100 = 0.6 → g.riskLevel = RiskLevel.MEDIUM) ∧
    (g.recommendedWinRate / 100 = 0.75 → g.riskLevel = RiskLevel.LOW) := by
  obtain ⟨k, -, -, hgeq⟩ := mem_find_eq hg
  subst hgeq
  exact riskOf_facts _

unseal Rat.add Rat.sub Rat.mul Rat.inv Rat.ofScientific in
/-- C4 witness. -/
theorem risk_level_spec_witness :
    simGroupEx.riskLevel = riskOf (simGroupEx.recommendedWinRate / 100) :=
  (risk_level_spec _ _ _ simGroupEx (List.head_mem findEx_ne)).1

/-- Two records of one pattern whose rises are both `-1` (peak 0 against a
baseline of 1), giving a negative average rise. -/
def negTokens : List Token :=
  [⟨"n1", 0, 0, false, 0, 0, 1, 1, 0, "p", 0, 0, 0, 0⟩,
   ⟨"n2", 0, 0, false, 0, 0, 1, 1, 0, "p", 0, 0, 0, 0⟩]

/-- Simulator options admitting negative rises (`minRiseSol = -5`). -/
def negOpts : SimOptions := ⟨false, -5, 2, 50, .avgRiseSol⟩

unseal Rat.add Rat.sub Rat.mul Rat.inv Rat.ofScientific in
/-- C8 counterexample: a group with negative average rise is returned with
negative candidate thresholds — the ladder is not clamped to a minimum of 0,
so "all candidates are ≥ 0" fails. -/
theorem threshold_clamping_counterexample :
    ∃ g ∈ findProfitableTokenGroups negOpts 0 negTokens, g.avgRiseSol < 0 ∧
      ∃ s ∈ g.allThresholdOptions, s.threshold < 0 := by
  decide

/-- C8 amended: the simulator never fails on a degenerate group — any
returned group with average rise ≤ 0 still carries its full 7-candidate
ladder (no clamping is applied, so a negative average gives negative
candidates, with the win definition still well-formed); and a group with
average rise exactly 0 has an all-zero ladder whose `winCount` equals the
number of members with rise ≥ 0. -/
theorem degenerate_ladder_amended (o : SimOptions) (sd : Int) (ts : List Token)
    (g : SimGroup) (hg : g ∈ findProfitableTokenGroups o sd ts)
    (hav : g.avgRiseSol ≤ 0) :
    g.allThresholdOptions.length = 7 ∧
    (g.avgRiseSol = 0 →
      ∀ s ∈ g.allThresholdOptions, s.threshold = 0 ∧
        s.winCount = (((simMembers o sd (simKeyOfGroup g) ts).map pipelineRiseSol).filter
          (fun r => decide ((0 : ℚ) ≤ r))).length) := by
  obtain ⟨k, hk, hne, hgeq⟩ := mem_find_eq hg
  rw [hk]
  subst hgeq
  refine ⟨rfl, ?_⟩
  intro h0 s hs
  obtain ⟨m, -, rfl⟩ := mem_allThresholdOptions hs
  have hzm : (buildSimGroup k (simMembers o sd k ts)).avgRiseSol * m = 0 := by
    rw [h0, zero_mul]
  constructor
  · exact hzm
  · show (((simMembers o sd k ts).map pipelineRiseSol).filter
      (fun r => decide ((buildSimGroup k (simMembers o sd k ts)).avgRiseSol * m ≤ r))).length = _
    rw [hzm]

/-- Two records of one pattern whose rises are both exactly 0. -/
def zeroTokens : List Token :=
  [⟨"z1", 0, 0, false, 1, 0, 1, 1, 0, "z", 0, 0, 0, 0⟩,
   ⟨"z2", 0, 0, false, 1, 0, 1, 1, 0, "z", 0, 0, 0, 0⟩]

unseal Rat.add Rat.sub Rat.mul Rat.inv Rat.ofScientific in
theorem findZero_ne : findProfitableTokenGroups SimOptions.default 0 zeroTokens ≠ [] :=
  List.ne_nil_of_length_pos (by decide)

/-- The zero-average-rise group. -/
def zeroGroupEx : SimGroup :=
  (findProfitableTokenGroups SimOptions.default 0 zeroTokens).head findZero_ne

unseal Rat.add Rat.sub Rat.mul Rat.inv Rat.ofScientific in
/-- C8 amended witness: the zero-average group still carries 7 candidates. -/
theorem degenerate_ladder_amended_witness :
    zeroGroupEx.allThresholdOptions.length = 7 :=
  (degenerate_ladder_amended _ _ _ zeroGroupEx (List.head_mem findZero_ne) (by decide)).1

end MigDBQuery
